import Mathlib

/-!
A shallow embedding of the `gosh` CLI front-end of gosh-dl-cli
(`src/bin/gosh`): the string utilities of `util.rs`, the input classifier of
`input/url_parser.rs`, the option builders and exit codes of `direct.rs` and
`commands/add.rs`.

Rust strings are modelled as Lean `String` values, operated on through their
character lists (`String.data`); byte positions of `&str` slicing are modelled
through per-character UTF-8 sizes where they matter.  Unicode case mapping and
whitespace classification are modelled on the ASCII range (the inputs the
claims quantify over only exercise that range).  Machine integers (`u64`,
`usize`) are `Nat` with explicit bounds checks where Rust's parsing or
arithmetic overflows.
-/

/-- Model of Rust `char::is_whitespace`, restricted to the ASCII range. -/
def char_is_whitespace (c : Char) : Bool :=
  c = ' ' || c = '\t' || c = '\n' || c = '\r'

/-- Model of Rust `str::trim`: drop whitespace from both ends. -/
def rust_str_trim (s : String) : String :=
  String.mk (((s.data.dropWhile char_is_whitespace).reverse.dropWhile
    char_is_whitespace).reverse)

/-- Model of Rust `char::to_uppercase` on the ASCII range. -/
def char_to_uppercase (c : Char) : Char :=
  if 'a' ≤ c ∧ c ≤ 'z' then Char.ofNat (c.toNat - 32) else c

/-- Model of Rust `char::to_lowercase` on the ASCII range. -/
def char_to_lowercase (c : Char) : Char :=
  if 'A' ≤ c ∧ c ≤ 'Z' then Char.ofNat (c.toNat + 32) else c

/-- Model of Rust `str::to_uppercase`. -/
def rust_to_uppercase (s : String) : String :=
  String.mk (s.data.map char_to_uppercase)

/-- Model of Rust `str::to_lowercase`. -/
def rust_to_lowercase (s : String) : String :=
  String.mk (s.data.map char_to_lowercase)

/-- Split a character list at every occurrence of `c` (occurrences are not
kept; an empty piece is kept, as Rust `str::split(char)` does). -/
def split_char (c : Char) : List Char → List (List Char)
  | [] => [[]]
  | x :: rest =>
    if x = c then [] :: split_char c rest
    else
      match split_char c rest with
      | g :: gs => (x :: g) :: gs
      | [] => [[x]]

/-- Model of Rust `str::split(char)` collected into a list. -/
def rust_split (c : Char) (s : String) : List String :=
  (split_char c s.data).map String.mk

/-- Model of Rust `str::ends_with(&str)`. -/
def ends_with (s p : String) : Bool :=
  p.data.isSuffixOf s.data

/-- Model of Rust `str::strip_prefix(&str)`: the remainder after `p`, when `s`
starts with `p`. -/
def remove_leading (p s : String) : Option String :=
  if p.data.isPrefixOf s.data then some (String.mk (s.data.drop p.data.length))
  else none

/-- Model of Rust `str::strip_suffix(char)`. -/
def remove_trailing (c : Char) (s : String) : Option String :=
  if s.data.getLast? = some c then some (String.mk s.data.dropLast) else none

/-- Model of Rust `str::split_once(char)`: the pieces before and after the
first occurrence of `c`. -/
def split_once (c : Char) (s : String) : Option (String × String) :=
  match s.data.findIdx? (fun x => x = c) with
  | some i => some (String.mk (s.data.take i), String.mk (s.data.drop (i + 1)))
  | none => none

/-- Numeric value of a list of decimal digit characters. -/
def digits_val (cs : List Char) : Nat :=
  cs.foldl (fun acc c => acc * 10 + (c.toNat - 48)) 0

/-- Model of Rust `str::parse::<u64>`: an optional leading `+`, then one or
more ASCII digits, and the value must fit in 64 bits (Rust reports overflow
as a parse error). -/
def u64_from_str (s : String) : Option Nat :=
  let ds := if s.data.head? = some '+' then s.data.tail else s.data
  if ds = [] then none
  else if ds.all Char.isDigit then
    let v := digits_val ds
    if v < 2 ^ 64 then some v else none
  else none

/-- Model of Rust `str::parse::<usize>` (64-bit targets). -/
def usize_from_str (s : String) : Option Nat :=
  u64_from_str s

/-- The value of an ASCII hex digit, `none` for any other character. -/
def hex_digit_val (c : Char) : Option Nat :=
  if '0' ≤ c ∧ c ≤ '9' then some (c.toNat - 48)
  else if 'a' ≤ c ∧ c ≤ 'f' then some (c.toNat - 87)
  else if 'A' ≤ c ∧ c ≤ 'F' then some (c.toNat - 55)
  else none

/-- The UTF-8 encoding of one character, as byte values. -/
def utf8_encode_char (c : Char) : List Nat :=
  let n := c.toNat
  if n < 0x80 then [n]
  else if n < 0x800 then
    [0xC0 + n / 64, 0x80 + n % 64]
  else if n < 0x10000 then
    [0xE0 + n / 4096, 0x80 + n / 64 % 64, 0x80 + n % 64]
  else
    [0xF0 + n / 262144, 0x80 + n / 4096 % 64, 0x80 + n / 64 % 64, 0x80 + n % 64]

/-- Admissible first continuation byte of a 3-byte UTF-8 sequence headed by
`b` (strict decoding: overlong forms and surrogates are rejected). -/
def cont2_ok (b b1 : Nat) : Bool :=
  if b = 0xE0 then 0xA0 ≤ b1 && b1 < 0xC0
  else if b = 0xED then 0x80 ≤ b1 && b1 < 0xA0
  else 0x80 ≤ b1 && b1 < 0xC0

/-- Admissible first continuation byte of a 4-byte UTF-8 sequence headed by
`b` (strict decoding: overlong forms and values beyond U+10FFFF rejected). -/
def cont3_ok (b b1 : Nat) : Bool :=
  if b = 0xF0 then 0x90 ≤ b1 && b1 < 0xC0
  else if b = 0xF4 then 0x80 ≤ b1 && b1 < 0x90
  else 0x80 ≤ b1 && b1 < 0xC0

/-- Strict UTF-8 decoding of a byte list, the model of
`String::from_utf8` validity used by `urlencoding::decode`. -/
def utf8_decode : List Nat → Option (List Char)
  | [] => some []
  | b :: rest =>
    if b < 0x80 then (utf8_decode rest).map (fun cs => Char.ofNat b :: cs)
    else if b < 0xC2 then none
    else if b < 0xE0 then
      match rest with
      | b1 :: rest1 =>
        if 0x80 ≤ b1 && b1 < 0xC0 then
          (utf8_decode rest1).map
            (fun cs => Char.ofNat ((b - 0xC0) * 64 + (b1 - 0x80)) :: cs)
        else none
      | [] => none
    else if b < 0xF0 then
      match rest with
      | b1 :: b2 :: rest2 =>
        if cont2_ok b b1 && (0x80 ≤ b2 && b2 < 0xC0) then
          (utf8_decode rest2).map
            (fun cs =>
              Char.ofNat ((b - 0xE0) * 4096 + (b1 - 0x80) * 64 + (b2 - 0x80)) :: cs)
        else none
      | _ => none
    else if b < 0xF5 then
      match rest with
      | b1 :: b2 :: b3 :: rest3 =>
        if cont3_ok b b1 && (0x80 ≤ b2 && b2 < 0xC0) && (0x80 ≤ b3 && b3 < 0xC0) then
          (utf8_decode rest3).map
            (fun cs =>
              Char.ofNat ((b - 0xF0) * 262144 + (b1 - 0x80) * 4096 +
                (b2 - 0x80) * 64 + (b3 - 0x80)) :: cs)
        else none
      | _ => none
    else none

/-- The byte stream produced by percent-decoding: `%hh` becomes one byte, a
malformed `%` is copied through, every other character contributes its UTF-8
bytes.  Models the byte phase of `urlencoding::decode`. -/
def percent_decode_bytes : List Char → List Nat
  | [] => []
  | '%' :: c1 :: c2 :: rest =>
    match hex_digit_val c1, hex_digit_val c2 with
    | some h, some l => (16 * h + l) :: percent_decode_bytes rest
    | _, _ => utf8_encode_char '%' ++ percent_decode_bytes (c1 :: c2 :: rest)
  | c :: rest => utf8_encode_char c ++ percent_decode_bytes rest

/-- Model of `urlencoding::decode`: percent-decode to bytes, then require the
result to be valid UTF-8. -/
def urlencoding_decode (name : List Char) : Option (List Char) :=
  utf8_decode (percent_decode_bytes name)

/-- Index of the first occurrence of `pat` in `s` (model of Rust
`str::find(&str)`; the index counts characters where Rust counts bytes, which
names the same occurrence). -/
def find_sub (pat : List Char) : List Char → Option Nat
  | [] => if pat.isPrefixOf ([] : List Char) then some 0 else none
  | c :: rest =>
    if pat.isPrefixOf (c :: rest) then some 0
    else (find_sub pat rest).map (fun i => i + 1)

/-! ### Engine-side types

`gosh_dl` (the engine library) is not part of this repository's `src/`; the
types the CLI exchanges with it are modelled from the spec, restricted to the
fields and constructors the CLI code uses. -/

/-- Modelled from the spec: `DownloadPriority` is the ordered enum
`{Low, Normal, High, Critical}` (`gosh_dl::DownloadPriority`, not in src/). -/
inductive DownloadPriority
  | low
  | normal
  | high
  | critical
deriving DecidableEq

/-- Modelled from the spec: an expected checksum is an algorithm in
`{md5, sha256}` together with the expected hex digest
(`gosh_dl::http::ExpectedChecksum`, not in src/); the CLI builds values
through the `md5`/`sha256` constructor functions. -/
inductive ExpectedChecksum
  | md5 (hex : String)
  | sha256 (hex : String)
deriving DecidableEq

/-- Modelled from the spec: `DownloadOptions` carries save directory, filename
override, header list, user-agent, referer, cookies, per-download connection
cap, per-download speed cap, expected checksum, the torrent-only fields
`{sequential, selected file indices, seed-ratio target}`, and the priority
(`gosh_dl::types::DownloadOptions`, not in src/).  `Default::default()` is all
`none` / empty, with `normal` priority.  `f64` is modelled as `Float` (only
carried, never computed with). -/
structure DownloadOptions where
  save_dir : Option String := none
  filename : Option String := none
  headers : List (String × String) := []
  user_agent : Option String := none
  referer : Option String := none
  cookies : Option (List String) := none
  checksum : Option ExpectedChecksum := none
  max_connections : Option Nat := none
  max_download_speed : Option Nat := none
  sequential : Option Bool := none
  selected_files : Option (List Nat) := none
  seed_ratio : Option Float := none
  priority : DownloadPriority := DownloadPriority.normal

/-- Hex digit character (lowercase) of a value below 16. -/
def hex_char (n : Nat) : Char :=
  if n < 10 then Char.ofNat (48 + n) else Char.ofNat (87 + n)

/-- Modelled from the spec: `DownloadId` is a 128-bit random identifier
(`gosh_dl::DownloadId`, not in src/). -/
structure DownloadId where
  uuid : Nat
deriving DecidableEq

/-- Modelled from the spec: `DownloadId::from_uuid` wraps a 128-bit UUID. -/
def DownloadId.from_uuid (u : Nat) : DownloadId :=
  ⟨u % 2 ^ 128⟩

/-- Modelled from the spec: `DownloadId::to_gid` is the short form, the first
16 of the 32 lowercase hex digits of the identifier. -/
def DownloadId.to_gid (id : DownloadId) : String :=
  String.mk ((List.range 16).map (fun i => hex_char (id.uuid / 16 ^ (31 - i) % 16)))

/-- Modelled from the spec: the element of `engine.list()` —
`gosh_dl::DownloadStatus` (not in src/) — restricted to the one field
`resolve_download_id` reads. -/
structure DownloadStatus where
  id : DownloadId
deriving DecidableEq

/-- Model of `uuid::Uuid::parse_str` (the `uuid` crate), restricted to the
simple 32-hex-digit and hyphenated 8-4-4-4-12 forms; every string the claims
quantify over (short-GID prefixes, at most 16 characters) fails it in both
the model and the crate. -/
def uuid_parse_str (s : String) : Option Nat :=
  let cs := s.data
  if cs.length = 32 ∧ cs.all (fun c => (hex_digit_val c).isSome) then
    some (cs.foldl (fun acc c => acc * 16 + (hex_digit_val c).getD 0) 0)
  else if cs.length = 36 then
    let groups := split_char '-' cs
    match groups with
    | [g1, g2, g3, g4, g5] =>
      if g1.length = 8 ∧ g2.length = 4 ∧ g3.length = 4 ∧ g4.length = 4 ∧
          g5.length = 12 ∧ (g1 ++ g2 ++ g3 ++ g4 ++ g5).all
            (fun c => (hex_digit_val c).isSome) then
        some ((g1 ++ g2 ++ g3 ++ g4 ++ g5).foldl
          (fun acc c => acc * 16 + (hex_digit_val c).getD 0) 0)
      else none
    | _ => none
  else none

/-! ### `input/url_parser.rs` -/

/-- `ParsedInput`: HTTP(S) URL, magnet link, or path to a torrent file
(`PathBuf` is modelled as the path string). -/
inductive ParsedInput
  | Http (url : String)
  | Magnet (uri : String)
  | TorrentFile (path : String)
deriving DecidableEq

/-- The display string of a magnet URI: the percent-decoded `dn` value when
`"dn="` occurs (falling back to the raw value when decoding fails), otherwise
a 16-character `btih` info-hash excerpt, otherwise the URI itself. -/
def magnet_display (uri : String) : String :=
  let cs := uri.data
  match find_sub "dn=".data cs with
  | some dn_start =>
    let name := (cs.drop (dn_start + 3)).takeWhile (fun c => c ≠ '&')
    match urlencoding_decode name with
    | some decoded => String.mk decoded
    | none => String.mk name
  | none =>
    match find_sub "btih:".data cs with
    | some hash_start =>
      "magnet:" ++ String.mk (((cs.drop (hash_start + 5)).takeWhile
        (fun c => c ≠ '&')).take 16)
    | none => uri

/-- `ParsedInput::display`. -/
def ParsedInput.display : ParsedInput → String
  | .Http url => url
  | .Magnet uri => magnet_display uri
  | .TorrentFile path => path

/-- `ParsedInput::kind`. -/
def ParsedInput.kind : ParsedInput → String
  | .Http _ => "http"
  | .Magnet _ => "magnet"
  | .TorrentFile _ => "torrent"

/-- The file-extension deny-list of `parse_input` (`url_parser.rs`). -/
def file_extensions : List String :=
  ["txt", "log", "csv", "json", "xml", "yml", "yaml", "toml", "ini", "cfg",
   "conf", "md", "rst", "zip", "tar", "gz", "bz2", "xz", "7z", "rar", "pdf",
   "doc", "docx", "rs", "py", "js", "ts", "go", "c", "h", "cpp", "java",
   "rb", "sh", "bat"]

/-- `parse_input` of `url_parser.rs`.  The file system is a parameter:
`path_exists` models `Path::exists`, `is_torrent_magic` models the
magic-bytes probe `is_torrent_file` (both read the disk).  The three failure
exits of the trailing heuristics all reach the same final `bail!`; they are
written as three `.error` sites with the same message. -/
def parse_input (path_exists is_torrent_magic : String → Bool)
    (input0 : String) : Except String ParsedInput :=
  let input := rust_str_trim input0
  if input = "" then .error "Empty input"
  else if "magnet:".data.isPrefixOf input.data then .ok (.Magnet input)
  else if "http://".data.isPrefixOf input.data ||
      "https://".data.isPrefixOf input.data then .ok (.Http input)
  else if path_exists input then
    if ends_with input ".torrent" || is_torrent_magic input then
      .ok (.TorrentFile input)
    else
      .ok (.TorrentFile input)
  else if ends_with input ".torrent" then .error "Torrent file not found"
  else if "www.".data.isPrefixOf input.data then
    .ok (.Http ("https://" ++ input))
  else if input.data.contains '/' && input.data.contains '.' then
    .ok (.Http ("https://" ++ input))
  else if input.data.contains '.' && !input.data.contains '/' then
    let parts := rust_split '.' input
    if parts.length ≥ 2 then
      let lastPart := parts.getLastD ""
      if !file_extensions.contains (rust_to_lowercase lastPart) then
        .ok (.Http ("https://" ++ input))
      else .error "Cannot determine input type"
    else .error "Cannot determine input type"
  else .error "Cannot determine input type"

/-- The raw `dn` value of a magnet URI, written as the claim states it: the
substring between the first occurrence of `"dn="` (at character position
`dn_start`) and the next `&`, or the end of the string. -/
def dn_value (uri : String) (dn_start : Nat) : List Char :=
  (uri.data.drop (dn_start + 3)).takeWhile (fun c => c ≠ '&')

/-! ### `util.rs` -/

namespace Util

/-- Whether `s`, lowercased, is a prefix of the lowercased short GID of the
download — the predicate of `resolve_download_id`'s filter
(`d.id.to_gid().to_lowercase().starts_with(&normalized)`). -/
def gid_matches (s : String) (d : DownloadStatus) : Bool :=
  (rust_to_lowercase s).data.isPrefixOf (rust_to_lowercase d.id.to_gid).data

/-- `resolve_download_id` of `util.rs`: try a full UUID first, then match by
GID prefix over the engine's download list (`engine.list()` is passed as the
list it returns).  The `match matches.len()` of the source is mirrored by
matching the filtered list's shape. -/
def resolve_download_id (s : String) (downloads : List DownloadStatus) :
    Except String DownloadId :=
  match uuid_parse_str s with
  | some u => .ok (DownloadId.from_uuid u)
  | none =>
    match downloads.filter (gid_matches s) with
    | [] => .error "Download not found"
    | [d] => .ok d.id
    | _ => .error "Ambiguous ID: matches multiple downloads"

/-- UTF-8 byte length of a character list (Rust `str::len`). -/
def utf8_len (cs : List Char) : Nat :=
  (cs.map Char.utf8Size).sum

/-- The byte indices at which the characters of a string start, counting from
`i` (Rust `str::char_indices`, indices only). -/
def char_indices_from (i : Nat) : List Char → List Nat
  | [] => []
  | c :: cs => i :: char_indices_from (i + c.utf8Size) cs

/-- The byte slice `&s[..n]` of a character list, for `n` a character
boundary: the characters that fit entirely within the first `n` bytes. -/
def byte_slice (n : Nat) : List Char → List Char
  | [] => []
  | c :: cs => if c.utf8Size ≤ n then c :: byte_slice (n - c.utf8Size) cs else []

/-- `truncate_str` of `util.rs`: return `s` unchanged when it holds at most
`max_len` bytes, else cut at the last character boundary at most
`max_len - 3` (saturating) and append `"..."`. -/
def truncate_str (s : String) (max_len : Nat) : String :=
  if utf8_len s.data ≤ max_len then s
  else
    let e := ((char_indices_from 0 s.data).takeWhile
      (fun i => i ≤ max_len - 3)).getLast?.getD 0
    String.mk (byte_slice e s.data) ++ "..."

/-- A component of a path, as Rust `std::path::Component` on Unix
(`Prefix` components exist only on Windows and are not modelled). -/
inductive Component
  | rootDir
  | curDir
  | parentDir
  | normal (s : String)
deriving DecidableEq

/-- One non-empty path piece as a component: `".."` is `ParentDir`, `"."` is
dropped (handled separately at the front), anything else is `Normal`. -/
def comp_of (s : String) : Option Component :=
  if s = ".." then some Component.parentDir
  else if s = "." then none
  else some (Component.normal s)

/-- Model of `Path::components` on Unix: a leading `/` yields `RootDir`, a
leading `"."` piece is kept as `CurDir`, empty and non-leading `"."` pieces
are dropped. -/
def components (p : String) : List Component :=
  let root := "/".data.isPrefixOf p.data
  let parts := (rust_split '/' p).filter (fun s => s ≠ "")
  (if root then [Component.rootDir]
   else if parts.head? = some "." then [Component.curDir]
   else []) ++ parts.filterMap comp_of

/-- The component loop of `sanitize_filename`: fail on the first `ParentDir`
or `RootDir` component. -/
def check_components : List Component → Except String Unit
  | [] => .ok ()
  | Component.parentDir :: _ => .error "Output filename must not contain parent components"
  | Component.rootDir :: _ => .error "Output filename must be relative, not absolute"
  | _ :: rest => check_components rest

/-- `sanitize_filename` of `util.rs`: trim, reject empty names and names with
a `ParentDir` or `RootDir` component; accept the trimmed name unchanged. -/
def sanitize_filename (name0 : String) : Except String String :=
  let name := rust_str_trim name0
  if name = "" then .error "Output filename cannot be empty"
  else
    match check_components (components name) with
    | .error e => .error e
    | .ok _ => .ok name

/-- `parse_speed` of `util.rs`: trim and uppercase, strip an optional
`K`/`M`/`G` suffix, parse the rest as `u64`, and scale.  The `u64`
multiplication is modelled modulo `2 ^ 64` (release-profile wrapping). -/
def parse_speed (s : String) : Except String Nat :=
  let t := rust_to_uppercase (rust_str_trim s)
  match remove_trailing 'K' t with
  | some num =>
    match u64_from_str num with
    | some n => .ok (n * 1024 % 2 ^ 64)
    | none => .error "invalid number"
  | none =>
    match remove_trailing 'M' t with
    | some num =>
      match u64_from_str num with
      | some n => .ok (n * 1024 * 1024 % 2 ^ 64)
      | none => .error "invalid number"
    | none =>
      match remove_trailing 'G' t with
      | some num =>
        match u64_from_str num with
        | some n => .ok (n * 1024 * 1024 * 1024 % 2 ^ 64)
        | none => .error "invalid number"
      | none =>
        match u64_from_str t with
        | some n => .ok n
        | none => .error "invalid number"

/-- The numeric part `parse_speed` hands to the `u64` parser: the trimmed,
uppercased input minus its `K`/`M`/`G` suffix when one is present. -/
def speed_numeric_part (s : String) : String :=
  let t := rust_to_uppercase (rust_str_trim s)
  match remove_trailing 'K' t with
  | some num => num
  | none =>
    match remove_trailing 'M' t with
    | some num => num
    | none =>
      match remove_trailing 'G' t with
      | some num => num
      | none => t

end Util

/-! ### Shared pieces of `direct.rs` and `commands/add.rs`

The two files duplicate the option-building code verbatim; the pieces below
are written once and referenced from both namespaces. -/

/-- Header parsing of `build_options`: `split_once(':')`, keeping the trimmed
name and value; headers with no `:` are skipped. -/
def parse_header (h : String) : Option (String × String) :=
  (split_once ':' h).map (fun p => (rust_str_trim p.1, rust_str_trim p.2))

/-- File-index parsing of `build_options`: split at `,`, trim, keep the
pieces that parse as `usize`. -/
def parse_file_indices (files : String) : List Nat :=
  (rust_split ',' files).filterMap (fun s => usize_from_str (rust_str_trim s))

/-- The `if let Some(x) = … { field = Some(parse(x)?) }` shape of both
`build_options`: parse an optional argument, threading the parse failure. -/
def opt_except (f : α → Except String β) : Option α → Except String (Option β)
  | some a => Except.map some (f a)
  | none => pure none

/-- The `matches!(input, ParsedInput::Magnet(_) | ParsedInput::TorrentFile(_))`
guard of both `build_options`. -/
def is_torrent_input : ParsedInput → Bool
  | .Magnet _ => true
  | .TorrentFile _ => true
  | .Http _ => false

/-- The torrent-specific tail of both `build_options`: set `sequential` when
the flag is given, `selected_files` when the `--select-files` argument parses
to a non-empty index list, and `seed_ratio` when given. -/
def torrent_adjust (sequential : Bool) (select_files : Option String)
    (seed_ratio : Option Float) (options : DownloadOptions) : DownloadOptions :=
  let options := if sequential then { options with sequential := some true }
    else options
  let options :=
    match select_files with
    | some files =>
      let indices := parse_file_indices files
      if indices ≠ [] then { options with selected_files := some indices }
      else options
    | none => options
  match seed_ratio with
  | some r => { options with seed_ratio := some r }
  | none => options

/-- The `selected_files` field the torrent tail produces from the
`--select-files` argument. -/
def selected_of (select_files : Option String) : Option (List Nat) :=
  match select_files with
  | some files =>
    let indices := parse_file_indices files
    if indices ≠ [] then some indices else none
  | none => none

/-- One call into the engine's `add_*` surface (`add_torrent` is recorded by
the torrent file's path; reading the file is part of the engine-side
behaviour parameter). -/
inductive AddCall
  | http (url : String) (options : DownloadOptions)
  | magnet (uri : String) (options : DownloadOptions)
  | torrent (path : String) (options : DownloadOptions)

/-- Which `add_*` call a parsed input produces. -/
def to_add_call : ParsedInput → DownloadOptions → AddCall
  | .Http url, o => .http url o
  | .Magnet uri, o => .magnet uri o
  | .TorrentFile path, o => .torrent path o

/-- Model of Rust `collect::<Result<Vec<_>, _>>()` over an iterator of
fallible results: all values, or the first error. -/
def collect_results (f : α → Except ε β) : List α → Except ε (List β)
  | [] => .ok []
  | a :: rest =>
    match f a with
    | .error e => .error e
    | .ok b => (collect_results f rest).map (fun bs => b :: bs)

/-! ### `direct.rs` -/

namespace Direct

/-- `DirectOptions` of `direct.rs` (`PathBuf` as `String`, `f64` as
`Float`). -/
structure DirectOptions where
  urls : List String
  dir : Option String := none
  out : Option String := none
  headers : List String := []
  user_agent : Option String := none
  referer : Option String := none
  cookies : List String := []
  checksum : Option String := none
  max_connections : Option Nat := none
  max_speed : Option String := none
  sequential : Bool := false
  select_files : Option String := none
  seed_ratio : Option Float := none

/-- `parse_checksum` of `direct.rs`. -/
def parse_checksum (s : String) : Except String ExpectedChecksum :=
  match remove_leading "md5:" s with
  | some hash => .ok (ExpectedChecksum.md5 hash)
  | none =>
    match remove_leading "sha256:" s with
    | some hash => .ok (ExpectedChecksum.sha256 hash)
    | none => .error "Invalid checksum format. Use md5:HASH or sha256:HASH"

/-- `parse_speed` of `direct.rs`, textually identical to `util.rs`'s. -/
def parse_speed : String → Except String Nat :=
  Util.parse_speed

/-- The input-independent part of `build_options` of `direct.rs`: the net
effect of its field assignments on `DownloadOptions::default()` (each
`if let Some(x) … = Some(x)` collapses to the option itself), with the two
fallible parses in source order. -/
def base_options (opts : DirectOptions) : Except String DownloadOptions := do
  let cks ← opt_except parse_checksum opts.checksum
  let spd ← opt_except parse_speed opts.max_speed
  pure
    { save_dir := opts.dir
      filename := opts.out
      headers := opts.headers.filterMap parse_header
      user_agent := opts.user_agent
      referer := opts.referer
      cookies := if opts.cookies = [] then none else some opts.cookies
      checksum := cks
      max_connections := opts.max_connections
      max_download_speed := spd
      sequential := none
      selected_files := none
      seed_ratio := none
      priority := DownloadPriority.normal }

/-- `build_options` of `direct.rs`: the common fields, then the
torrent-specific tail exactly when the input is a magnet or torrent file. -/
def build_options (opts : DirectOptions) (input : ParsedInput) :
    Except String DownloadOptions := do
  let options ← base_options opts
  pure (if is_torrent_input input then
    torrent_adjust opts.sequential opts.select_files opts.seed_ratio options
  else options)

namespace exit_codes

/-- Exit code: success. -/
def SUCCESS : Int := 0

/-- Exit code: some downloads completed, some failed. -/
def PARTIAL_FAILURE : Int := 1

/-- Exit code: every download failed. -/
def TOTAL_FAILURE : Int := 2

/-- Exit code: interrupted by Ctrl-C. -/
def INTERRUPTED : Int := 130

end exit_codes

/-- Per-download state of the direct-mode monitor loop (the progress-bar
handle is UI-only and not modelled). -/
structure DownloadInfo where
  name : String
  completed : Bool
  failed : Bool
deriving DecidableEq

/-- The exit-code computation at the end of `execute` (`direct.rs:238-254`):
counts of completed and failed downloads, failures to add included. -/
def final_exit_code (downloads : List DownloadInfo) (failed_to_add : Nat) : Int :=
  let completed_count := (downloads.filter (fun d => d.completed)).length
  let failed_count := (downloads.filter (fun d => d.failed)).length + failed_to_add
  if failed_count = 0 then exit_codes.SUCCESS
  else if completed_count > 0 then exit_codes.PARTIAL_FAILURE
  else exit_codes.TOTAL_FAILURE

/-- The process exit code of direct mode: `TOTAL_FAILURE` when no download
was added at all (`direct.rs:132-136`), `INTERRUPTED` when Ctrl-C arrived
before the monitor loop finished (`direct.rs:148-179`), else the final
computation. -/
def exit_code (downloads : List DownloadInfo) (failed_to_add : Nat)
    (interrupted : Bool) : Int :=
  if downloads = [] then exit_codes.TOTAL_FAILURE
  else if interrupted then exit_codes.INTERRUPTED
  else final_exit_code downloads failed_to_add

/-- The add loop of direct mode (`direct.rs:96-130`): per input, build the
options (a failure of `build_options` aborts through `?`), then issue the
`add_*` call; the call's own failure only increments `failed_to_add` and
does not stop the loop.  Returns the calls issued and the abort error, if
any. -/
def add_loop (opts : DirectOptions) :
    List ParsedInput → List AddCall → List AddCall × Option String
  | [], acc => (acc.reverse, none)
  | input :: rest, acc =>
    match build_options opts input with
    | .error e => (acc.reverse, some e)
    | .ok o => add_loop opts rest (to_add_call input o :: acc)

/-- The argument-validation and add phase of `execute` (`direct.rs:53-130`):
empty-URL and `-o`-with-many checks, parse every input first
(`collect::<Result<_>>`), then run the add loop.  Returns the `add_*` calls
issued and the error, if any. -/
def run (path_exists is_torrent_magic : String → Bool) (opts : DirectOptions) :
    List AddCall × Option String :=
  if opts.urls = [] then ([], some "No URLs provided")
  else if opts.out.isSome && decide (opts.urls.length > 1) then
    ([], some "Cannot use out with multiple downloads")
  else
    match collect_results (parse_input path_exists is_torrent_magic) opts.urls with
    | .error e => ([], some e)
    | .ok inputs => add_loop opts inputs []

end Direct

/-! ### `commands/add.rs` (and the `Priority` enum of `cli.rs`) -/

namespace AddCmd

/-- The CLI `Priority` value-enum of `cli.rs`. -/
inductive CliPriority
  | low
  | normal
  | high
  | critical
deriving DecidableEq

/-- `Priority::to_engine_priority` of `cli.rs`. -/
def CliPriority.to_engine_priority : CliPriority → DownloadPriority
  | .low => DownloadPriority.low
  | .normal => DownloadPriority.normal
  | .high => DownloadPriority.high
  | .critical => DownloadPriority.critical

/-- `AddArgs` of `cli.rs` (`PathBuf` as `String`, `f64` as `Float`). -/
structure AddArgs where
  urls : List String
  input_file : Option String := none
  dir : Option String := none
  out : Option String := none
  priority : CliPriority := CliPriority.normal
  wait : Bool := false
  headers : List String := []
  user_agent : Option String := none
  referer : Option String := none
  cookies : List String := []
  checksum : Option String := none
  max_connections : Option Nat := none
  max_speed : Option String := none
  sequential : Bool := false
  select_files : Option String := none
  seed_ratio : Option Float := none

/-- `parse_checksum` of `commands/add.rs`, textually identical to
`direct.rs`'s. -/
def parse_checksum : String → Except String ExpectedChecksum :=
  Direct.parse_checksum

/-- `parse_speed` of `commands/add.rs`, textually identical to `util.rs`'s. -/
def parse_speed : String → Except String Nat :=
  Util.parse_speed

/-- The input-independent part of `build_options` of `commands/add.rs`: as in
`direct.rs`, plus the priority taken from the arguments. -/
def base_options (args : AddArgs) : Except String DownloadOptions := do
  let cks ← opt_except parse_checksum args.checksum
  let spd ← opt_except parse_speed args.max_speed
  pure
    { save_dir := args.dir
      filename := args.out
      headers := args.headers.filterMap parse_header
      user_agent := args.user_agent
      referer := args.referer
      cookies := if args.cookies = [] then none else some args.cookies
      checksum := cks
      max_connections := args.max_connections
      max_download_speed := spd
      sequential := none
      selected_files := none
      seed_ratio := none
      priority := args.priority.to_engine_priority }

/-- `build_options` of `commands/add.rs`. -/
def build_options (args : AddArgs) (input : ParsedInput) :
    Except String DownloadOptions := do
  let options ← base_options args
  pure (if is_torrent_input input then
    torrent_adjust args.sequential args.select_files args.seed_ratio options
  else options)

/-- The add loop of the `add` command (`add.rs:50-70`): per input, build
options and call `add_*`; both failures abort through `?` (a failing `add_*`
call has still been issued and is recorded). -/
def add_loop (args : AddArgs) (engine : AddCall → Except String DownloadId) :
    List ParsedInput → List AddCall → List AddCall × Option String
  | [], acc => (acc.reverse, none)
  | input :: rest, acc =>
    match build_options args input with
    | .error e => (acc.reverse, some e)
    | .ok o =>
      let call := to_add_call input o
      match engine call with
      | .error e => ((call :: acc).reverse, some e)
      | .ok _ => add_loop args engine rest (call :: acc)

/-- The validation and add phase of the `add` command's `execute`
(`add.rs:22-70`): `urls` is the URL list after the stdin/file collection
(lines 24-35); empty and `-o`-with-many checks, parse every input first
(`collect::<Result<_>>`), then the add loop. -/
def run (path_exists is_torrent_magic : String → Bool)
    (engine : AddCall → Except String DownloadId) (args : AddArgs)
    (urls : List String) : List AddCall × Option String :=
  if urls = [] then ([], some "No URLs provided")
  else if args.out.isSome && decide (urls.length > 1) then
    ([], some "Cannot use out with multiple downloads")
  else
    match collect_results (parse_input path_exists is_torrent_magic) urls with
    | .error e => ([], some e)
    | .ok inputs => add_loop args engine inputs []

end AddCmd

/-- The tuple of every `DownloadOptions` field other than the three
torrent-only ones (`sequential`, `selected_files`, `seed_ratio`). -/
def common_fields (o : DownloadOptions) :=
  (o.save_dir, o.filename, o.headers, o.user_agent, o.referer, o.cookies,
   o.checksum, o.max_connections, o.max_download_speed, o.priority)

/-- Equality of every `DownloadOptions` field other than the three
torrent-only ones. -/
def common_fields_eq (a b : DownloadOptions) : Prop :=
  common_fields a = common_fields b

/-! ## Helper lemmas -/

/-- Bind in `Except` yields `ok` exactly when both stages do. -/
theorem except_bind_ok {ε α β : Type} (x : Except ε α) (f : α → Except ε β)
    (b : β) : (x >>= f) = .ok b ↔ ∃ a, x = .ok a ∧ f a = .ok b := by
  cases x <;> simp [Bind.bind, Except.bind]

/-- A string starts with `p` exactly when it is `p` followed by a rest. -/
theorem starts_with_iff (p s : String) :
    p.data.isPrefixOf s.data = true ↔ ∃ rest : String, s = p ++ rest := by
  rw [List.isPrefixOf_iff_prefix]
  constructor
  · rintro ⟨t, ht⟩
    exact ⟨String.mk t, String.ext (by rw [String.data_append] ; exact ht.symm)⟩
  · rintro ⟨rest, rfl⟩
    exact ⟨rest.data, (String.data_append p rest).symm⟩

/-- `remove_leading` on `p ++ rest` returns exactly `rest`. -/
theorem remove_leading_append (p rest : String) :
    remove_leading p (p ++ rest) = some rest := by
  have hp : p.data.isPrefixOf (p ++ rest).data = true := by
    rw [starts_with_iff]; exact ⟨rest, rfl⟩
  simp only [remove_leading, hp, if_pos]
  congr 1
  apply String.ext
  rw [String.data_append, List.drop_left]

/-- If some element of the list fails, `collect_results` fails. -/
theorem collect_results_isError {α β : Type} {f : α → Except String β}
    {l : List α} (h : ∃ u ∈ l, ∃ e, f u = .error e) :
    ∃ e, collect_results f l = .error e := by
  induction l with
  | nil => simp at h
  | cons a rest ih =>
    obtain ⟨u, hu, e, hue⟩ := h
    cases hfa : f a with
    | error e2 => exact ⟨e2, by simp [collect_results, hfa]⟩
    | ok b =>
      have hrest : ∃ u ∈ rest, ∃ e, f u = .error e := by
        rcases List.mem_cons.mp hu with rfl | hm
        · rw [hfa] at hue; cases hue
        · exact ⟨u, hm, e, hue⟩
      obtain ⟨e2, he2⟩ := ih hrest
      exact ⟨e2, by simp [collect_results, hfa, he2, Except.map]⟩

/-! ## Claims -/

/-- **C1.** For a string that does not parse as a full UUID,
`resolve_download_id` succeeds exactly when exactly one download of
`engine.list()` has a short GID whose lowercase form starts with the
lowercased input, returning that download's id; with zero or several prefix
matches it returns an error. -/
theorem resolve_download_id_spec (s : String) (downloads : List DownloadStatus)
    (h : uuid_parse_str s = none) :
    (∀ d, downloads.filter (Util.gid_matches s) = [d] →
        Util.resolve_download_id s downloads = .ok d.id) ∧
    ((downloads.filter (Util.gid_matches s)).length ≠ 1 →
        ∃ e, Util.resolve_download_id s downloads = .error e) := by
  constructor
  · intro d hd
    simp only [Util.resolve_download_id, h, hd]
  · intro hlen
    rcases hf : downloads.filter (Util.gid_matches s) with _ | ⟨d1, _ | ⟨d2, rest2⟩⟩
    · exact ⟨"Download not found", by simp only [Util.resolve_download_id, h, hf]⟩
    · rw [hf] at hlen; simp at hlen
    · exact ⟨"Ambiguous ID: matches multiple downloads",
        by simp only [Util.resolve_download_id, h, hf]⟩

/-- **C1 witness.** A one-element list whose GID starts with `ab`, queried
with the prefix `AB` (exercising the lowercase normalisation). -/
theorem resolve_download_id_witness :
    uuid_parse_str "AB" = none ∧
    Util.resolve_download_id "AB" [⟨⟨0xabcdef0123456789abcdef0123456789⟩⟩] =
      .ok ⟨0xabcdef0123456789abcdef0123456789⟩ :=
  ⟨rfl, (resolve_download_id_spec "AB" [⟨⟨0xabcdef0123456789abcdef0123456789⟩⟩]
    rfl).1 ⟨⟨0xabcdef0123456789abcdef0123456789⟩⟩ rfl⟩

/-- **C8.** `parse_checksum` (in both `direct.rs` and `commands/add.rs`)
returns `Ok` exactly when the input starts with `md5:` or `sha256:`,
producing the corresponding algorithm with the remainder of the string as
the expected hex digest — the remainder is accepted unvalidated — and
returns an error for every other input. -/
theorem parse_checksum_spec (s : String) :
    (∀ rest, s = "md5:" ++ rest →
        Direct.parse_checksum s = .ok (ExpectedChecksum.md5 rest) ∧
        AddCmd.parse_checksum s = .ok (ExpectedChecksum.md5 rest)) ∧
    (∀ rest, s = "sha256:" ++ rest →
        Direct.parse_checksum s = .ok (ExpectedChecksum.sha256 rest) ∧
        AddCmd.parse_checksum s = .ok (ExpectedChecksum.sha256 rest)) ∧
    ((¬ ∃ rest, s = "md5:" ++ rest) → (¬ ∃ rest, s = "sha256:" ++ rest) →
        ∃ e, Direct.parse_checksum s = .error e ∧
          AddCmd.parse_checksum s = .error e) := by
  refine ⟨?_, ?_, ?_⟩
  · rintro rest rfl
    have h := remove_leading_append "md5:" rest
    constructor <;> simp only [Direct.parse_checksum, AddCmd.parse_checksum, h]
  · rintro rest rfl
    have hno : remove_leading "md5:" ("sha256:" ++ rest) = none := by
      simp only [remove_leading, ite_eq_right_iff]
      intro hp
      obtain ⟨t, ht⟩ := (starts_with_iff "md5:" ("sha256:" ++ rest)).mp hp
      have : ("sha256:" ++ rest).data = ("md5:" ++ t).data := by rw [ht]
      simp [String.data_append] at this
    have h := remove_leading_append "sha256:" rest
    constructor <;> simp only [Direct.parse_checksum, AddCmd.parse_checksum, hno, h]
  · intro h1 h2
    have hno1 : remove_leading "md5:" s = none := by
      simp only [remove_leading, ite_eq_right_iff]
      intro hp
      exact absurd ((starts_with_iff "md5:" s).mp hp) h1
    have hno2 : remove_leading "sha256:" s = none := by
      simp only [remove_leading, ite_eq_right_iff]
      intro hp
      exact absurd ((starts_with_iff "sha256:" s).mp hp) h2
    exact ⟨"Invalid checksum format. Use md5:HASH or sha256:HASH",
      by simp only [Direct.parse_checksum, AddCmd.parse_checksum, hno1, hno2],
      by simp only [AddCmd.parse_checksum, Direct.parse_checksum, hno1, hno2]⟩

/-- **C2.** When direct mode finishes without interruption, the exit code is
`0` exactly when no download failed (failures to add included), `1` exactly
when at least one completed and at least one failed, and `2` exactly when at
least one failed and none completed; an interruption before completion exits
with `130`.  The hypothesis states that at least one input was attempted
(direct mode rejects an empty URL list). -/
theorem direct_exit_code_spec (infos : List Direct.DownloadInfo)
    (failed_to_add : Nat) (h : ¬(infos = [] ∧ failed_to_add = 0)) :
    (Direct.exit_code infos failed_to_add false = 0 ↔
      (infos.filter (fun d => d.failed)).length + failed_to_add = 0) ∧
    (Direct.exit_code infos failed_to_add false = 1 ↔
      ((infos.filter (fun d => d.failed)).length + failed_to_add ≠ 0 ∧
        (infos.filter (fun d => d.completed)).length > 0)) ∧
    (Direct.exit_code infos failed_to_add false = 2 ↔
      ((infos.filter (fun d => d.failed)).length + failed_to_add ≠ 0 ∧
        (infos.filter (fun d => d.completed)).length = 0)) ∧
    (infos ≠ [] → Direct.exit_code infos failed_to_add true = 130) := by
  by_cases hi : infos = []
  · subst hi
    have hf : failed_to_add ≠ 0 := fun hz => h ⟨rfl, hz⟩
    simp only [Direct.exit_code, Direct.exit_codes.TOTAL_FAILURE, if_pos rfl,
      List.filter_nil, List.length_nil, Nat.zero_add, gt_iff_lt]
    refine ⟨by simp [hf], by simp [hf], by simp [hf], by simp⟩
  · simp only [Direct.exit_code, Direct.final_exit_code, if_neg hi,
      Bool.false_eq_true, if_false, Direct.exit_codes.SUCCESS,
      Direct.exit_codes.PARTIAL_FAILURE, Direct.exit_codes.TOTAL_FAILURE,
      Direct.exit_codes.INTERRUPTED, gt_iff_lt, if_true]
    refine ⟨?_, ?_, ?_, fun _ => by simp⟩ <;> split_ifs with h1 h2 <;>
      constructor <;> intro hx <;> omega

/-- **C2 witness.** One completed and one failed download exit with code 1;
with an interrupt the same set exits with 130. -/
theorem direct_exit_code_witness :
    Direct.exit_code
      [⟨"a", true, false⟩, ⟨"b", false, true⟩] 0 false = 1 ∧
    Direct.exit_code
      [⟨"a", true, false⟩, ⟨"b", false, true⟩] 0 true = 130 := by
  have h := direct_exit_code_spec
    [⟨"a", true, false⟩, ⟨"b", false, true⟩] 0 (by simp)
  exact ⟨h.2.1.mpr (by decide), h.2.2.2 (by decide)⟩

/-- **C4.** If any URL string given to direct mode or to the `add` command
fails `parse_input`, the command errors out without having issued a single
`add_*` call: all inputs are parsed (`collect`ed) before the first add. -/
theorem parse_failure_no_adds (pe tm : String → Bool)
    (opts : Direct.DirectOptions) (engine : AddCall → Except String DownloadId)
    (args : AddCmd.AddArgs) (urls : List String) :
    ((∃ u ∈ opts.urls, ∃ e, parse_input pe tm u = .error e) →
      (Direct.run pe tm opts).1 = [] ∧ (Direct.run pe tm opts).2.isSome = true) ∧
    ((∃ u ∈ urls, ∃ e, parse_input pe tm u = .error e) →
      (AddCmd.run pe tm engine args urls).1 = [] ∧
        (AddCmd.run pe tm engine args urls).2.isSome = true) := by
  constructor
  · intro h
    obtain ⟨e, he⟩ := collect_results_isError h
    simp only [Direct.run]
    split_ifs <;> simp [he]
  · intro h
    obtain ⟨e, he⟩ := collect_results_isError h
    simp only [AddCmd.run]
    split_ifs <;> simp [he]

/-- The component check succeeds exactly when no component is `ParentDir` or
`RootDir`. -/
theorem check_components_ok_iff (cs : List Util.Component) :
    Util.check_components cs = .ok () ↔
      (Util.Component.parentDir ∉ cs ∧ Util.Component.rootDir ∉ cs) := by
  induction cs with
  | nil => simp [Util.check_components]
  | cons c rest ih =>
    cases c <;> simp [Util.check_components, ih]

/-- **C9.** `sanitize_filename` accepts exactly the inputs whose trimmed name
is non-empty and, viewed as a path, has no parent-directory component and no
root (absolute) component; the accepted value is the trimmed input
unchanged, so every accepted filename is a relative path that cannot
traverse above the save directory. -/
theorem sanitize_filename_spec (name : String) :
    ((∃ v, Util.sanitize_filename name = .ok v) ↔
      (rust_str_trim name ≠ "" ∧
        Util.Component.parentDir ∉ Util.components (rust_str_trim name) ∧
        Util.Component.rootDir ∉ Util.components (rust_str_trim name))) ∧
    (Util.sanitize_filename name = .ok (rust_str_trim name) ↔
      (rust_str_trim name ≠ "" ∧
        Util.Component.parentDir ∉ Util.components (rust_str_trim name) ∧
        Util.Component.rootDir ∉ Util.components (rust_str_trim name))) := by
  by_cases ht : rust_str_trim name = ""
  · simp [Util.sanitize_filename, ht]
  · rcases hc : Util.check_components (Util.components (rust_str_trim name))
      with e | u
    · have hno : ¬(Util.Component.parentDir ∉ Util.components (rust_str_trim name) ∧
          Util.Component.rootDir ∉ Util.components (rust_str_trim name)) := by
        intro hcontra
        rw [(check_components_ok_iff _).mpr hcontra] at hc
        cases hc
      simp only [Util.sanitize_filename, if_neg ht, hc]
      constructor
      · constructor
        · rintro ⟨v, hv⟩; cases hv
        · intro hx; exact absurd ⟨hx.2.1, hx.2.2⟩ hno
      · constructor
        · intro hv; cases hv
        · intro hx; exact absurd ⟨hx.2.1, hx.2.2⟩ hno
    · cases u
      have hok := (check_components_ok_iff
        (Util.components (rust_str_trim name))).mp hc
      simp only [Util.sanitize_filename, if_neg ht, hc]
      constructor
      · exact ⟨fun _ => ⟨ht, hok.1, hok.2⟩, fun _ => ⟨_, rfl⟩⟩
      · simp [ht, hok.1, hok.2]

/-- The input-independent `direct.rs` option builder leaves the three
torrent-only fields at their defaults. -/
theorem direct_base_options_ok_fields (opts : Direct.DirectOptions)
    (b : DownloadOptions) (h : Direct.base_options opts = .ok b) :
    b.sequential = none ∧ b.selected_files = none ∧ b.seed_ratio = none := by
  rw [Direct.base_options] at h
  rw [except_bind_ok] at h
  obtain ⟨cks, hc, h⟩ := h
  rw [except_bind_ok] at h
  obtain ⟨spd, hs, h⟩ := h
  simp only [pure, Except.pure, Except.ok.injEq] at h
  subst h
  exact ⟨rfl, rfl, rfl⟩

/-- The input-independent `commands/add.rs` option builder leaves the three
torrent-only fields at their defaults. -/
theorem addcmd_base_options_ok_fields (args : AddCmd.AddArgs)
    (b : DownloadOptions) (h : AddCmd.base_options args = .ok b) :
    b.sequential = none ∧ b.selected_files = none ∧ b.seed_ratio = none := by
  rw [AddCmd.base_options] at h
  rw [except_bind_ok] at h
  obtain ⟨cks, hc, h⟩ := h
  rw [except_bind_ok] at h
  obtain ⟨spd, hs, h⟩ := h
  simp only [pure, Except.pure, Except.ok.injEq] at h
  subst h
  exact ⟨rfl, rfl, rfl⟩

/-- The torrent-specific tail sets exactly the three torrent-only fields,
from the corresponding arguments, when they start from their defaults. -/
theorem torrent_adjust_fields (seq : Bool) (sf : Option String)
    (sr : Option Float) (o : DownloadOptions) (h1 : o.sequential = none)
    (h2 : o.selected_files = none) (h3 : o.seed_ratio = none) :
    (torrent_adjust seq sf sr o).sequential = (if seq then some true else none) ∧
    (torrent_adjust seq sf sr o).selected_files = selected_of sf ∧
    (torrent_adjust seq sf sr o).seed_ratio = sr := by
  obtain ⟨sd, fn, hd, ua, rf, ck, cs, mc, ms, sq, sl, sr2, pr⟩ := o
  simp only at h1 h2 h3
  subst h1; subst h2; subst h3
  unfold torrent_adjust selected_of
  rcases sr with _ | r <;> rcases sf with _ | files <;> by_cases hs : seq <;>
    simp [hs] <;> split_ifs <;> simp

/-- The torrent-specific tail does not touch any other field. -/
theorem torrent_adjust_common (seq : Bool) (sf : Option String)
    (sr : Option Float) (o : DownloadOptions) :
    common_fields (torrent_adjust seq sf sr o) = common_fields o := by
  obtain ⟨sd, fn, hd, ua, rf, ck, cs, mc, ms, sq, sl, sr2, pr⟩ := o
  unfold torrent_adjust common_fields
  rcases sr with _ | r <;> rcases sf with _ | files <;> by_cases hs : seq <;>
    simp [hs] <;> split_ifs <;> simp

/-- `direct.rs`'s `build_options` is its base part followed by the
torrent-specific tail exactly on magnet/torrent inputs. -/
theorem direct_build_options_ok_iff (opts : Direct.DirectOptions)
    (i : ParsedInput) (oi : DownloadOptions) :
    Direct.build_options opts i = .ok oi ↔
      ∃ b, Direct.base_options opts = .ok b ∧
        oi = (if is_torrent_input i then
          torrent_adjust opts.sequential opts.select_files opts.seed_ratio b
        else b) := by
  rw [Direct.build_options, except_bind_ok]
  constructor
  · rintro ⟨b, hb, hpure⟩
    simp only [pure, Except.pure, Except.ok.injEq] at hpure
    exact ⟨b, hb, hpure.symm⟩
  · rintro ⟨b, hb, rfl⟩
    exact ⟨b, hb, rfl⟩

/-- `commands/add.rs`'s `build_options` is its base part followed by the
torrent-specific tail exactly on magnet/torrent inputs. -/
theorem addcmd_build_options_ok_iff (args : AddCmd.AddArgs)
    (i : ParsedInput) (oi : DownloadOptions) :
    AddCmd.build_options args i = .ok oi ↔
      ∃ b, AddCmd.base_options args = .ok b ∧
        oi = (if is_torrent_input i then
          torrent_adjust args.sequential args.select_files args.seed_ratio b
        else b) := by
  rw [AddCmd.build_options, except_bind_ok]
  constructor
  · rintro ⟨b, hb, hpure⟩
    simp only [pure, Except.pure, Except.ok.injEq] at hpure
    exact ⟨b, hb, hpure.symm⟩
  · rintro ⟨b, hb, rfl⟩
    exact ⟨b, hb, rfl⟩

/-- **C5.** On HTTP inputs both `build_options` leave the torrent-only fields
`sequential`, `selected_files` and `seed_ratio` at their default `none` even
when the corresponding arguments are supplied; on magnet/torrent inputs the
arguments are carried into those fields; every other option field is built
identically regardless of the input's kind. -/
theorem build_options_torrent_only_spec (opts : Direct.DirectOptions)
    (args : AddCmd.AddArgs) (i j : ParsedInput) :
    (∀ url oi, i = ParsedInput.Http url → Direct.build_options opts i = .ok oi →
      oi.sequential = none ∧ oi.selected_files = none ∧ oi.seed_ratio = none) ∧
    (∀ oi, is_torrent_input i = true → Direct.build_options opts i = .ok oi →
      oi.sequential = (if opts.sequential then some true else none) ∧
      oi.selected_files = selected_of opts.select_files ∧
      oi.seed_ratio = opts.seed_ratio) ∧
    (∀ oi oj, Direct.build_options opts i = .ok oi →
      Direct.build_options opts j = .ok oj → common_fields_eq oi oj) ∧
    (∀ url oi, i = ParsedInput.Http url → AddCmd.build_options args i = .ok oi →
      oi.sequential = none ∧ oi.selected_files = none ∧ oi.seed_ratio = none) ∧
    (∀ oi, is_torrent_input i = true → AddCmd.build_options args i = .ok oi →
      oi.sequential = (if args.sequential then some true else none) ∧
      oi.selected_files = selected_of args.select_files ∧
      oi.seed_ratio = args.seed_ratio) ∧
    (∀ oi oj, AddCmd.build_options args i = .ok oi →
      AddCmd.build_options args j = .ok oj → common_fields_eq oi oj) := by
  refine ⟨?_, ?_, ?_, ?_, ?_, ?_⟩
  · rintro url oi rfl hok
    obtain ⟨b, hb, hoi⟩ :=
      (direct_build_options_ok_iff opts (ParsedInput.Http url) oi).mp hok
    rw [hoi]
    simp only [is_torrent_input, Bool.false_eq_true, if_false]
    exact direct_base_options_ok_fields opts b hb
  · intro oi htor hok
    obtain ⟨b, hb, rfl⟩ := (direct_build_options_ok_iff opts i oi).mp hok
    obtain ⟨f1, f2, f3⟩ := direct_base_options_ok_fields opts b hb
    simpa [htor] using torrent_adjust_fields opts.sequential opts.select_files
      opts.seed_ratio b f1 f2 f3
  · intro oi oj h1 h2
    obtain ⟨b1, hb1, rfl⟩ := (direct_build_options_ok_iff opts i oi).mp h1
    obtain ⟨b2, hb2, rfl⟩ := (direct_build_options_ok_iff opts j oj).mp h2
    rw [hb1] at hb2
    injection hb2 with hb
    subst hb
    have e1 := torrent_adjust_common opts.sequential opts.select_files
      opts.seed_ratio b1
    unfold common_fields_eq
    split_ifs <;> simp [e1]
  · rintro url oi rfl hok
    obtain ⟨b, hb, hoi⟩ :=
      (addcmd_build_options_ok_iff args (ParsedInput.Http url) oi).mp hok
    rw [hoi]
    simp only [is_torrent_input, Bool.false_eq_true, if_false]
    exact addcmd_base_options_ok_fields args b hb
  · intro oi htor hok
    obtain ⟨b, hb, rfl⟩ := (addcmd_build_options_ok_iff args i oi).mp hok
    obtain ⟨f1, f2, f3⟩ := addcmd_base_options_ok_fields args b hb
    simpa [htor] using torrent_adjust_fields args.sequential args.select_files
      args.seed_ratio b f1 f2 f3
  · intro oi oj h1 h2
    obtain ⟨b1, hb1, rfl⟩ := (addcmd_build_options_ok_iff args i oi).mp h1
    obtain ⟨b2, hb2, rfl⟩ := (addcmd_build_options_ok_iff args j oj).mp h2
    rw [hb1] at hb2
    injection hb2 with hb
    subst hb
    have e1 := torrent_adjust_common args.sequential args.select_files
      args.seed_ratio b1
    unfold common_fields_eq
    split_ifs <;> simp [e1]

/-- **C3 (amended).** For every trimmed scheme-less input that does not exist
as a local path, does not start with `www.` and does not end with
`.torrent`: an input containing `.` but no `/`, with at least two
dot-separated parts, is mapped to `Http("https://" ++ input)` exactly when
its lowercased last part is not in the file-extension deny-list, and
otherwise `parse_input` returns an error; in particular the bare domain
`example.com` maps to `Http "https://example.com"`. -/
theorem parse_input_bare_domain_spec (pe tm : String → Bool) (input : String)
    (htrim : rust_str_trim input = input)
    (hmag : "magnet:".data.isPrefixOf input.data = false)
    (h1 : "http://".data.isPrefixOf input.data = false)
    (h2 : "https://".data.isPrefixOf input.data = false)
    (hpe : pe input = false)
    (htor : ends_with input ".torrent" = false)
    (hwww : "www.".data.isPrefixOf input.data = false)
    (hdot : input.data.contains '.' = true)
    (hslash : input.data.contains '/' = false)
    (hparts : (rust_split '.' input).length ≥ 2) :
    (parse_input pe tm input = .ok (.Http ("https://" ++ input)) ↔
      file_extensions.contains
        (rust_to_lowercase ((rust_split '.' input).getLastD "")) = false) ∧
    (file_extensions.contains
        (rust_to_lowercase ((rust_split '.' input).getLastD "")) = true →
      ∃ e, parse_input pe tm input = .error e) ∧
    (∀ pe2 : String → Bool, pe2 "example.com" = false →
      parse_input pe2 tm "example.com" = .ok (.Http "https://example.com")) := by
  have main : ∀ (pe' : String → Bool) (input' : String),
      rust_str_trim input' = input' →
      "magnet:".data.isPrefixOf input'.data = false →
      "http://".data.isPrefixOf input'.data = false →
      "https://".data.isPrefixOf input'.data = false →
      pe' input' = false →
      ends_with input' ".torrent" = false →
      "www.".data.isPrefixOf input'.data = false →
      input'.data.contains '.' = true →
      input'.data.contains '/' = false →
      (rust_split '.' input').length ≥ 2 →
      (parse_input pe' tm input' = .ok (.Http ("https://" ++ input')) ↔
        file_extensions.contains
          (rust_to_lowercase ((rust_split '.' input').getLastD "")) = false) ∧
      (file_extensions.contains
          (rust_to_lowercase ((rust_split '.' input').getLastD "")) = true →
        ∃ e, parse_input pe' tm input' = .error e) := by
    intro pe' input' htrim' hmag' h1' h2' hpe' htor' hwww' hdot' hslash' hparts'
    have hne : input' ≠ "" := by
      intro h0
      rw [h0] at hdot'
      simp at hdot'
    rw [parse_input]
    rw [htrim']
    simp only [hmag', h1', h2', hpe', htor', hwww', hdot', hslash', hne,
      Bool.false_eq_true, if_false, Bool.or_self, Bool.false_and,
      Bool.and_false, Bool.not_false, Bool.true_and, Bool.and_true, if_true]
    rw [if_pos hparts']
    by_cases hext : file_extensions.contains
        (rust_to_lowercase ((rust_split '.' input').getLastD "")) = true
    · simp only [hext, Bool.not_true, Bool.false_eq_true, if_false]
      exact ⟨by constructor <;> intro hx <;> simp_all,
        fun _ => ⟨"Cannot determine input type", rfl⟩⟩
    · have hext' : file_extensions.contains
          (rust_to_lowercase ((rust_split '.' input').getLastD "")) = false :=
        Bool.not_eq_true _ ▸ Bool.eq_false_iff.mpr hext
      simp only [hext', Bool.not_false, if_true]
      exact ⟨by simp [hext'], fun hx => absurd hx (by simp)⟩
  have hm := main pe input htrim hmag h1 h2 hpe htor hwww hdot hslash hparts
  refine ⟨hm.1, hm.2, ?_⟩
  intro pe2 hpe2
  have h := main pe2 "example.com" rfl (by decide) (by decide) (by decide)
    hpe2 (by decide) (by decide) (by decide) (by decide) (by decide)
  exact h.1.mpr (by decide)

/-- **C3 witness.** The bare domain `foo.com` (no local file of that name)
maps to `https://foo.com`. -/
theorem parse_input_bare_domain_witness :
    rust_str_trim "foo.com" = "foo.com" ∧
    parse_input (fun _ => false) (fun _ => false) "foo.com" =
      .ok (.Http "https://foo.com") := by
  have h := parse_input_bare_domain_spec (fun _ => false) (fun _ => false)
    "foo.com" rfl (by decide) (by decide) (by decide) rfl (by decide)
    (by decide) (by decide) (by decide) (by decide)
  exact ⟨rfl, h.1.mpr (by decide)⟩

/-- **C3 counterexample.** `www.txt` is trimmed, scheme-less, contains `.`
but no `/`, has two dot-separated parts whose last, `txt`, is in the
deny-list — the claim then requires an error — yet `parse_input` classifies
it as `Http "https://www.txt"` because the `www.` branch fires first. -/
theorem parse_input_claim_counterexample :
    rust_str_trim "www.txt" = "www.txt" ∧
    "magnet:".data.isPrefixOf "www.txt".data = false ∧
    "http://".data.isPrefixOf "www.txt".data = false ∧
    "https://".data.isPrefixOf "www.txt".data = false ∧
    "www.txt".data.contains '.' = true ∧
    "www.txt".data.contains '/' = false ∧
    (rust_split '.' "www.txt").length = 2 ∧
    file_extensions.contains
      (rust_to_lowercase ((rust_split '.' "www.txt").getLastD "")) = true ∧
    parse_input (fun _ => false) (fun _ => false) "www.txt" =
      .ok (ParsedInput.Http "https://www.txt") :=
  ⟨rfl, by decide, by decide, by decide, by decide, by decide, by decide,
    by decide, rfl⟩

/-- Repacking a string from its own characters is the identity. -/
theorem mk_data (s : String) : String.mk s.data = s := by
  rcases s with ⟨d⟩
  rfl

/-- `dropWhile` does nothing on a list with no whitespace. -/
theorem no_ws_dropWhile (l : List Char)
    (h : ∀ c ∈ l, char_is_whitespace c = false) :
    l.dropWhile char_is_whitespace = l := by
  cases l with
  | nil => rfl
  | cons a t => rw [List.dropWhile_cons, h a (List.mem_cons_self a t)]; simp

/-- Trimming does nothing on a string with no whitespace. -/
theorem trim_of_no_ws (s : String)
    (h : ∀ c ∈ s.data, char_is_whitespace c = false) :
    rust_str_trim s = s := by
  unfold rust_str_trim
  rw [no_ws_dropWhile s.data h,
    no_ws_dropWhile s.data.reverse (fun c hc => h c (List.mem_reverse.mp hc)),
    List.reverse_reverse, mk_data]

/-- Mapping uppercase over characters it fixes is the identity. -/
theorem upper_map_id (l : List Char)
    (h : ∀ c ∈ l, char_to_uppercase c = c) : l.map char_to_uppercase = l := by
  induction l with
  | nil => rfl
  | cons a t ih =>
    rw [List.map_cons, h a (List.mem_cons_self a t),
      ih (fun c hc => h c (List.mem_cons_of_mem a hc))]

/-- A decimal digit is not whitespace. -/
theorem digit_not_ws (c : Char) (h1 : '0' ≤ c) (h2 : c ≤ '9') :
    char_is_whitespace c = false := by
  simp only [char_is_whitespace, Bool.or_eq_false_iff, decide_eq_false_iff_not]
  refine ⟨⟨⟨fun hc => ?_, fun hc => ?_⟩, fun hc => ?_⟩, fun hc => ?_⟩ <;>
    subst hc <;> exact absurd h1 (by decide)

/-- Uppercasing fixes a decimal digit. -/
theorem digit_upper_eq (c : Char) (h1 : '0' ≤ c) (h2 : c ≤ '9') :
    char_to_uppercase c = c := by
  unfold char_to_uppercase
  rw [if_neg]
  rintro ⟨ha, -⟩
  exact absurd (le_trans ha h2) (by decide)

/-- A character in the digit range satisfies `Char.isDigit`. -/
theorem digit_isDigit (c : Char) (h1 : '0' ≤ c) (h2 : c ≤ '9') :
    c.isDigit = true := by
  simp [Char.isDigit]
  exact ⟨h1, h2⟩

/-- A decimal digit differs from any character above `'9'`. -/
theorem digit_ne_big (c d : Char) (h2 : c ≤ '9') (hd : ('9' : Char) < d) :
    c ≠ d := by
  rintro rfl
  exact absurd h2 (not_le.mpr hd)

/-- `strip_suffix(char)` misses when no character equals the suffix. -/
theorem remove_trailing_none (c : Char) (s : String)
    (h : ∀ x ∈ s.data, x ≠ c) : remove_trailing c s = none := by
  unfold remove_trailing
  rw [if_neg]
  intro hcon
  exact h c (List.mem_of_mem_getLast? (Option.mem_def.mpr hcon)) rfl

/-- `strip_suffix(char)` strips an appended suffix character. -/
theorem remove_trailing_concat (c : Char) (s : String) :
    remove_trailing c (String.mk (s.data ++ [c])) = some s := by
  unfold remove_trailing
  rw [if_pos (List.getLast?_concat s.data), List.dropLast_concat, mk_data]

/-- The `u64` parser accepts a digit string whose value fits. -/
theorem u64_digits (s : String) (hne : s.data ≠ [])
    (hd : ∀ c ∈ s.data, '0' ≤ c ∧ c ≤ '9')
    (hv : digits_val s.data < 2 ^ 64) :
    u64_from_str s = some (digits_val s.data) := by
  unfold u64_from_str
  have hhead : ¬s.data.head? = some '+' := by
    cases hs : s.data with
    | nil => simp
    | cons a t =>
      simp only [List.head?, Option.some.injEq]
      intro hcon
      have := (hd a (by rw [hs]; exact List.mem_cons_self a t)).1
      rw [hcon] at this
      exact absurd this (by decide)
  rw [if_neg hhead, if_neg hne]
  have hall : s.data.all Char.isDigit = true := by
    rw [List.all_eq_true]
    exact fun c hc => digit_isDigit c (hd c hc).1 (hd c hc).2
  rw [hall]
  simp only [if_true, if_pos hv]

/-- **C6 (amended).** For every non-empty string of decimal digits whose
value fits in `u64`, `parse_speed` (in `util.rs`, `direct.rs` and
`commands/add.rs`) returns the value in bytes with no suffix, and — whenever
the scaled value also fits in `u64` — the value times `1024`, `1024²`,
`1024³` for the suffixes `K`/`k`, `M`/`m`, `G`/`g`; for every input whose
numeric part does not parse as an unsigned 64-bit decimal number it returns
an error. -/
theorem parse_speed_spec (s : String) (hne : s.data ≠ [])
    (hd : ∀ c ∈ s.data, '0' ≤ c ∧ c ≤ '9')
    (hv : digits_val s.data < 2 ^ 64) :
    (Util.parse_speed s = .ok (digits_val s.data) ∧
      Direct.parse_speed s = .ok (digits_val s.data) ∧
      AddCmd.parse_speed s = .ok (digits_val s.data)) ∧
    (digits_val s.data * 1024 < 2 ^ 64 →
      Util.parse_speed (s ++ "K") = .ok (digits_val s.data * 1024) ∧
      Util.parse_speed (s ++ "k") = .ok (digits_val s.data * 1024)) ∧
    (digits_val s.data * 1024 * 1024 < 2 ^ 64 →
      Util.parse_speed (s ++ "M") = .ok (digits_val s.data * 1024 * 1024) ∧
      Util.parse_speed (s ++ "m") = .ok (digits_val s.data * 1024 * 1024)) ∧
    (digits_val s.data * 1024 * 1024 * 1024 < 2 ^ 64 →
      Util.parse_speed (s ++ "G") =
        .ok (digits_val s.data * 1024 * 1024 * 1024) ∧
      Util.parse_speed (s ++ "g") =
        .ok (digits_val s.data * 1024 * 1024 * 1024)) ∧
    (∀ t : String, u64_from_str (Util.speed_numeric_part t) = none →
      ∃ e, Util.parse_speed t = .error e) := by
  have hnws : ∀ c ∈ s.data, char_is_whitespace c = false :=
    fun c hc => digit_not_ws c (hd c hc).1 (hd c hc).2
  have htrim : rust_str_trim s = s := trim_of_no_ws s hnws
  have hupper : rust_to_uppercase s = s := by
    unfold rust_to_uppercase
    rw [upper_map_id s.data (fun c hc => digit_upper_eq c (hd c hc).1 (hd c hc).2),
      mk_data]
  have hu : u64_from_str s = some (digits_val s.data) := u64_digits s hne hd hv
  have hKs : remove_trailing 'K' s = none := remove_trailing_none _ _
    (fun x hx => digit_ne_big x 'K' (hd x hx).2 (by decide))
  have hMs : remove_trailing 'M' s = none := remove_trailing_none _ _
    (fun x hx => digit_ne_big x 'M' (hd x hx).2 (by decide))
  have hGs : remove_trailing 'G' s = none := remove_trailing_none _ _
    (fun x hx => digit_ne_big x 'G' (hd x hx).2 (by decide))
  have base : Util.parse_speed s = .ok (digits_val s.data) := by
    simp only [Util.parse_speed, htrim, hupper, hKs, hMs, hGs, hu]
  -- facts about `s` with one suffix character appended
  have happ : ∀ c : Char, (s ++ String.mk [c]).data = s.data ++ [c] :=
    fun c => String.data_append s (String.mk [c])
  have hmkeq : ∀ c : Char, s ++ String.mk [c] = String.mk (s.data ++ [c]) :=
    fun c => String.ext (happ c)
  have htrimc : ∀ c : Char, char_is_whitespace c = false →
      rust_str_trim (String.mk (s.data ++ [c])) = String.mk (s.data ++ [c]) := by
    intro c hc
    refine trim_of_no_ws _ ?_
    intro x hx
    rcases List.mem_append.mp hx with h | h
    · exact hnws x h
    · rw [List.mem_singleton.mp h]; exact hc
  have hupperc : ∀ c up : Char, char_to_uppercase c = up →
      rust_to_uppercase (String.mk (s.data ++ [c])) =
        String.mk (s.data ++ [up]) := by
    intro c up hc
    unfold rust_to_uppercase
    show String.mk ((s.data ++ [c]).map char_to_uppercase) = _
    rw [List.map_append,
      upper_map_id s.data (fun x hx => digit_upper_eq x (hd x hx).1 (hd x hx).2),
      List.map_singleton, hc]
  have hnotc : ∀ c d : Char, ('9' : Char) < d → c ≠ d →
      remove_trailing d (String.mk (s.data ++ [c])) = none := by
    intro c d h9 hcd
    refine remove_trailing_none d _ ?_
    intro x hx
    rcases List.mem_append.mp hx with h | h
    · exact digit_ne_big x d (hd x h).2 h9
    · rw [List.mem_singleton.mp h]; exact hcd
  have suffix_ok : ∀ (c up : Char), char_is_whitespace c = false →
      char_to_uppercase c = up → ∀ m : Except String Nat,
      (match remove_trailing 'K' (String.mk (s.data ++ [up])) with
        | some num =>
          match u64_from_str num with
          | some n => Except.ok (n * 1024 % 2 ^ 64)
          | none => Except.error "invalid number"
        | none =>
          match remove_trailing 'M' (String.mk (s.data ++ [up])) with
          | some num =>
            match u64_from_str num with
            | some n => Except.ok (n * 1024 * 1024 % 2 ^ 64)
            | none => Except.error "invalid number"
          | none =>
            match remove_trailing 'G' (String.mk (s.data ++ [up])) with
            | some num =>
              match u64_from_str num with
              | some n => Except.ok (n * 1024 * 1024 * 1024 % 2 ^ 64)
              | none => Except.error "invalid number"
            | none =>
              match u64_from_str (String.mk (s.data ++ [up])) with
              | some n => Except.ok n
              | none => Except.error "invalid number") = m →
      Util.parse_speed (s ++ String.mk [c]) = m := by
    intro c up hwsc hupc m hm
    simp only [Util.parse_speed, hmkeq c, htrimc c hwsc, hupperc c up hupc]
    exact hm
  refine ⟨⟨base, base, base⟩, ?_, ?_, ?_, ?_⟩
  · intro hfit
    constructor <;>
      [exact suffix_ok 'K' 'K' (by decide) (by decide) _
        (by simp only [remove_trailing_concat, hu, Nat.mod_eq_of_lt hfit]);
       exact suffix_ok 'k' 'K' (by decide) (by decide) _
        (by simp only [remove_trailing_concat, hu, Nat.mod_eq_of_lt hfit])]
  · intro hfit
    constructor <;>
      [exact suffix_ok 'M' 'M' (by decide) (by decide) _
        (by simp only [hnotc 'M' 'K' (by decide) (by decide),
          remove_trailing_concat, hu, Nat.mod_eq_of_lt hfit]);
       exact suffix_ok 'm' 'M' (by decide) (by decide) _
        (by simp only [hnotc 'M' 'K' (by decide) (by decide),
          remove_trailing_concat, hu, Nat.mod_eq_of_lt hfit])]
  · intro hfit
    constructor <;>
      [exact suffix_ok 'G' 'G' (by decide) (by decide) _
        (by simp only [hnotc 'G' 'K' (by decide) (by decide),
          hnotc 'G' 'M' (by decide) (by decide),
          remove_trailing_concat, hu, Nat.mod_eq_of_lt hfit]);
       exact suffix_ok 'g' 'G' (by decide) (by decide) _
        (by simp only [hnotc 'G' 'K' (by decide) (by decide),
          hnotc 'G' 'M' (by decide) (by decide),
          remove_trailing_concat, hu, Nat.mod_eq_of_lt hfit])]
  · intro t hnone
    simp only [Util.speed_numeric_part] at hnone
    simp only [Util.parse_speed]
    rcases hK' : remove_trailing 'K' (rust_to_uppercase (rust_str_trim t))
      with _ | num
    · rcases hM' : remove_trailing 'M' (rust_to_uppercase (rust_str_trim t))
        with _ | num
      · rcases hG' : remove_trailing 'G' (rust_to_uppercase (rust_str_trim t))
          with _ | num
        · simp only [hK', hM', hG'] at hnone ⊢
          rw [hnone]
          exact ⟨_, rfl⟩
        · simp only [hK', hM', hG'] at hnone ⊢
          rw [hnone]
          exact ⟨_, rfl⟩
      · simp only [hK', hM'] at hnone ⊢
        rw [hnone]
        exact ⟨_, rfl⟩
    · simp only [hK'] at hnone ⊢
      rw [hnone]
      exact ⟨_, rfl⟩

/-- **C6 witness.** `"5"` parses to 5 bytes and `"5K"` to 5120. -/
theorem parse_speed_witness :
    Util.parse_speed "5" = .ok 5 ∧ Util.parse_speed "5K" = .ok 5120 := by
  have h := parse_speed_spec "5" (by decide)
    (by intro c hc; simp at hc; subst hc; exact ⟨by decide, by decide⟩)
    (by decide)
  exact ⟨h.1.1, (h.2.1 (by decide)).1⟩

/-- **C6 counterexample.** `"18446744073709551616"` (`2^64`) is a string of
decimal digits, but `parse_speed` reports an error instead of returning its
value: Rust's `u64` parse overflows. -/
theorem parse_speed_claim_counterexample :
    "18446744073709551616".data.all Char.isDigit = true ∧
    Util.parse_speed "18446744073709551616" = .error "invalid number" ∧
    Direct.parse_speed "18446744073709551616" = .error "invalid number" :=
  ⟨by decide, rfl, rfl⟩

/-- **C7.** For a magnet URI containing `"dn="`, `display` returns the
URL-decoded `dn` value — the percent-decoded substring between the first
`"dn="` and the next `&` or the end of the string (stated for values whose
percent-decoding is valid UTF-8; on a decoding failure the raw value is
shown instead) — and `parse_input` classifies every trimmed input beginning
with `"magnet:"` as `Magnet` with the input unchanged. -/
theorem magnet_display_dn_spec (uri : String) (dn_start : Nat)
    (decoded : List Char)
    (h1 : find_sub "dn=".data uri.data = some dn_start)
    (h2 : urlencoding_decode (dn_value uri dn_start) = some decoded) :
    (ParsedInput.Magnet uri).display = String.mk decoded ∧
    (∀ (input : String) (pe tm : String → Bool),
      rust_str_trim input = input →
      "magnet:".data.isPrefixOf input.data = true →
      parse_input pe tm input = .ok (ParsedInput.Magnet input)) := by
  constructor
  · simp only [dn_value] at h2
    simp only [ParsedInput.display, magnet_display, h1, h2]
  · intro input pe tm htrim hpre
    have hne : input ≠ "" := by
      intro h0
      rw [h0] at hpre
      exact absurd hpre (by decide)
    rw [parse_input, htrim]
    simp only [hne, if_false, hpre, if_true]

/-- **C7 witness.** `magnet:?xt=urn:btih:abc&dn=My%20File` displays as
`My File`, and a trimmed `magnet:` input is classified as `Magnet`. -/
theorem magnet_display_dn_witness :
    (ParsedInput.Magnet "magnet:?xt=urn:btih:abc&dn=My%20File").display =
      "My File" ∧
    parse_input (fun _ => false) (fun _ => false) "magnet:?x" =
      .ok (ParsedInput.Magnet "magnet:?x") := by
  have h := magnet_display_dn_spec "magnet:?xt=urn:btih:abc&dn=My%20File" 24
    "My File".data rfl rfl
  exact ⟨h.1, h.2 "magnet:?x" (fun _ => false) (fun _ => false) rfl (by decide)⟩

/-- UTF-8 length distributes over append. -/
theorem utf8_len_append (a b : List Char) :
    Util.utf8_len (a ++ b) = Util.utf8_len a + Util.utf8_len b := by
  simp [Util.utf8_len]

/-- Every recorded character index is the byte length of a prefix of the
string (offset by the start index): indices are character boundaries. -/
theorem char_indices_bound (cs : List Char) :
    ∀ (i : Nat), ∀ j ∈ Util.char_indices_from i cs,
      ∃ pre suf, cs = pre ++ suf ∧ j = i + Util.utf8_len pre := by
  induction cs with
  | nil => intro i j hj; simp [Util.char_indices_from] at hj
  | cons c rest ih =>
    intro i j hj
    simp only [Util.char_indices_from, List.mem_cons] at hj
    rcases hj with rfl | hj
    · exact ⟨[], c :: rest, rfl, by simp [Util.utf8_len]⟩
    · obtain ⟨pre, suf, hsplit, hsum⟩ := ih (i + c.utf8Size) j hj
      refine ⟨c :: pre, suf, by rw [hsplit, List.cons_append], ?_⟩
      simp only [Util.utf8_len, List.map_cons, List.sum_cons] at hsum ⊢
      omega

/-- Slicing at the byte length of a prefix recovers exactly that prefix. -/
theorem byte_slice_exact (pre : List Char) :
    ∀ suf : List Char, Util.byte_slice (Util.utf8_len pre) (pre ++ suf) = pre := by
  induction pre with
  | nil =>
    intro suf
    cases suf with
    | nil => rfl
    | cons c cs =>
      simp only [List.nil_append, Util.byte_slice]
      rw [if_neg]
      have := Char.utf8Size_pos c
      simp only [Util.utf8_len, List.map_nil, List.sum_nil]
      omega
  | cons c pre' ih =>
    intro suf
    simp only [List.cons_append, Util.byte_slice]
    rw [if_pos]
    · have hsub : Util.utf8_len (c :: pre') - c.utf8Size = Util.utf8_len pre' := by
        simp only [Util.utf8_len, List.map_cons, List.sum_cons]
        omega
      rw [hsub]
      simp only [List.append_eq]
      rw [ih suf]
    · simp only [Util.utf8_len, List.map_cons, List.sum_cons]
      omega

/-- **C10.** `truncate_str` never slices inside a character: it returns `s`
unchanged when `s` holds at most `max_len` bytes, and otherwise cuts `s` at
a character boundary and appends `"..."`, producing a string of at most
`max max_len 3` bytes. -/
theorem truncate_str_spec (s : String) (max_len : Nat) :
    (Util.utf8_len s.data ≤ max_len → Util.truncate_str s max_len = s) ∧
    (max_len < Util.utf8_len s.data →
      ∃ pre suf, s.data = pre ++ suf ∧
        Util.truncate_str s max_len = String.mk pre ++ "..." ∧
        Util.utf8_len (Util.truncate_str s max_len).data ≤ max max_len 3) := by
  constructor
  · intro h
    simp only [Util.truncate_str, if_pos h]
  · intro h
    have hnle : ¬Util.utf8_len s.data ≤ max_len := not_le.mpr h
    have hEb : ((Util.char_indices_from 0 s.data).takeWhile
        (fun i => i ≤ max_len - 3)).getLast?.getD 0 ≤ max_len - 3 := by
      rcases hg : ((Util.char_indices_from 0 s.data).takeWhile
          (fun i => i ≤ max_len - 3)).getLast? with _ | j
      · simp [hg]
      · have hj := List.mem_takeWhile_imp
          (List.mem_of_mem_getLast? (Option.mem_def.mpr hg))
        simp only [decide_eq_true_eq] at hj
        simpa [hg] using hj
    obtain ⟨pre, suf, hsplit, hlen⟩ : ∃ pre suf, s.data = pre ++ suf ∧
        Util.utf8_len pre = ((Util.char_indices_from 0 s.data).takeWhile
          (fun i => i ≤ max_len - 3)).getLast?.getD 0 := by
      rcases hg : ((Util.char_indices_from 0 s.data).takeWhile
          (fun i => i ≤ max_len - 3)).getLast? with _ | j
      · exact ⟨[], s.data, rfl, by simp [hg, Util.utf8_len]⟩
      · have hj : j ∈ (Util.char_indices_from 0 s.data).takeWhile
            (fun i => i ≤ max_len - 3) :=
          List.mem_of_mem_getLast? (Option.mem_def.mpr hg)
        have hj2 : j ∈ Util.char_indices_from 0 s.data :=
          List.takeWhile_subset _ hj
        obtain ⟨pre, suf, hsp, hsum⟩ := char_indices_bound s.data 0 j hj2
        refine ⟨pre, suf, hsp, ?_⟩
        simp only [hg, Option.getD_some]
        omega
    have htr : Util.truncate_str s max_len = String.mk pre ++ "..." := by
      simp only [Util.truncate_str, if_neg hnle]
      rw [← hlen, hsplit, byte_slice_exact]
    refine ⟨pre, suf, hsplit, htr, ?_⟩
    rw [htr]
    have hdata : (String.mk pre ++ "...").data = pre ++ "...".data :=
      String.data_append _ _
    rw [hdata, utf8_len_append]
    have h3 : Util.utf8_len "...".data = 3 := by decide
    rw [h3]
    have hple : Util.utf8_len pre ≤ max_len - 3 := hlen ▸ hEb
    rcases Nat.le_total max_len 3 with hc | hc
    · rw [Nat.max_eq_right hc]
      omega
    · rw [Nat.max_eq_left hc]
      omega

/-- **C10 witness.** A short string is unchanged; a long one is cut at a
boundary to at most `max 8 3` bytes ending in `"..."`. -/
theorem truncate_str_witness :
    Util.truncate_str "abc" 5 = "abc" ∧
    (∃ pre suf, "hello world".data = pre ++ suf ∧
      Util.truncate_str "hello world" 8 = String.mk pre ++ "..." ∧
      Util.utf8_len (Util.truncate_str "hello world" 8).data ≤ max 8 3) :=
  ⟨(truncate_str_spec "abc" 5).1 (by decide),
   (truncate_str_spec "hello world" 8).2 (by decide)⟩
